import Mathlib

/-
  Shallow embedding of the hybrid recommendation engine
  (src/workspaces/.../build-ml-model.py).

  Modelling conventions:
  * Python floats are modelled as rationals; all arithmetic is exact.
  * Raw interaction rows are records with an optional rating.  In the source
    the rating column is present or absent for a whole DataFrame; here the
    per-row option with a default of 1 captures both cases.
  * pandas value_counts / isin / drop_duplicates / unique are modelled by
    list operations that keep the first occurrence, matching pandas.
  * The truncated SVD call is an external library computation; it is made a
    parameter (an oracle returning user and item factor matrices), as is the
    TF-IDF plus cosine-similarity fit of the content model.  Both oracles
    return Except so that a library failure inside train can be modelled.
  * numpy indexing of the bias vectors is modelled with getD; for any model
    produced by fit the lengths agree with the guards, so the default is
    never read on the paths the source exercises.
  * Python dicts keyed by index are association lists keeping insertion
    order; Python sets of indices are duplicate-free lists in insertion
    order (set iteration order is unspecified in the design, and no theorem
    below depends on the chosen order).
-/

namespace RecEngine

/-- Raw interaction row: user id, item id, optional rating. -/
structure Interaction where
  user_id : String
  item_id : String
  rating : Option ℚ
deriving DecidableEq, Repr

/-- Duplicate removal keeping the first row for each (user_id, item_id) key,
as pandas drop_duplicates does. -/
def dedupByKey : List Interaction → List (String × String) → List Interaction
  | [], _ => []
  | r :: rs, seen =>
    if (r.user_id, r.item_id) ∈ seen then dedupByKey rs seen
    else r :: dedupByKey rs ((r.user_id, r.item_id) :: seen)

/-- drop_duplicates on the (user_id, item_id) pair. -/
def dropDuplicates (l : List Interaction) : List Interaction := dedupByKey l []

/-- Number of rows of l whose key (given by f) equals v: the value_counts
entry for v. -/
def countBy (l : List Interaction) (f : Interaction → String) (v : String) : ℕ :=
  (l.filter (fun r => decide (f r = v))).length

/-- Worker for the first-occurrence list of distinct elements: keep each
element the first time it appears, tracking already-kept elements. -/
def uniqueInOrderAux : List String → List String → List String
  | [], _ => []
  | a :: l, seen =>
    if a ∈ seen then uniqueInOrderAux l seen
    else a :: uniqueInOrderAux l (a :: seen)

/-- First-occurrence list of distinct elements, as pandas Series.unique. -/
def uniqueInOrder (l : List String) : List String := uniqueInOrderAux l []

/-- DataProcessor state: the minimum-interaction threshold and the two
identity maps.  An identity map is stored as its first-occurrence list of
external ids; the encoder of an id is its position in the list and the
decoder of an index is the element at that position. -/
structure DataProcessor where
  min_interactions : ℕ
  user_ids : List String
  item_ids : List String
deriving DecidableEq, Repr

/-- Deduplicate, then keep exactly the rows whose user and item both have at
least min_interactions occurrences in the deduplicated data (the single
joint filtering pass of preprocess_interactions). -/
def filteredInteractions (min_interactions : ℕ) (df : List Interaction) : List Interaction :=
  let dd := dropDuplicates df
  dd.filter (fun r =>
    decide (min_interactions ≤ countBy dd (fun x => x.user_id) r.user_id) &&
    decide (min_interactions ≤ countBy dd (fun x => x.item_id) r.item_id))

/-- preprocess_interactions: returns the updated DataProcessor (encoders
rebuilt wholesale from the filtered data) together with the filtered rows. -/
def preprocessDP (dp : DataProcessor) (df : List Interaction) :
    DataProcessor × List Interaction :=
  let fl := filteredInteractions dp.min_interactions df
  (⟨dp.min_interactions,
    uniqueInOrder (fl.map (fun r => r.user_id)),
    uniqueInOrder (fl.map (fun r => r.item_id))⟩, fl)

/-- Encoded interaction: dense user index, dense item index, optional rating. -/
structure EncodedInteraction where
  user_idx : ℕ
  item_idx : ℕ
  rating : Option ℚ
deriving DecidableEq, Repr

/-- Application of the encoders to the filtered rows (the user_idx and
item_idx columns added by preprocess_interactions). -/
def encodeRows (dp : DataProcessor) (fl : List Interaction) : List EncodedInteraction :=
  fl.map (fun r => ⟨dp.user_ids.indexOf r.user_id, dp.item_ids.indexOf r.item_id, r.rating⟩)

/-- Sparse user-by-item matrix in coordinate form, as handed to csr_matrix:
shape and the list of stored (row, column, value) triples. -/
structure InteractionMatrix where
  nRows : ℕ
  nCols : ℕ
  entries : List (ℕ × ℕ × ℚ)
deriving DecidableEq, Repr

/-- create_interaction_matrix: shape from the encoder sizes, one stored
entry per encoded row, value the rating defaulted to 1. -/
def create_interaction_matrix (dp : DataProcessor) (enc : List EncodedInteraction) :
    InteractionMatrix :=
  ⟨dp.user_ids.length, dp.item_ids.length,
   enc.map (fun r => (r.user_idx, r.item_idx, r.rating.getD 1))⟩

/-- Cell value at (i, j): sum of stored values with those coordinates
(scipy sums duplicate coordinates on conversion). -/
def InteractionMatrix.entryAt (m : InteractionMatrix) (i j : ℕ) : ℚ :=
  ((m.entries.filter (fun e => decide (e.1 = i) && decide (e.2.1 = j))).map
    (fun e => e.2.2)).sum

/-- Sum of the stored data values. -/
def InteractionMatrix.dataSum (m : InteractionMatrix) : ℚ :=
  (m.entries.map (fun e => e.2.2)).sum

/-- Mean of the stored data values (interaction_matrix.data.mean). -/
def InteractionMatrix.dataMean (m : InteractionMatrix) : ℚ :=
  m.dataSum / m.entries.length

/-- Row sum (matrix.sum over axis 1). -/
def InteractionMatrix.rowSum (m : InteractionMatrix) (i : ℕ) : ℚ :=
  ((m.entries.filter (fun e => decide (e.1 = i))).map (fun e => e.2.2)).sum

/-- Number of columns whose cell in row i is strictly positive
((matrix gt 0).sum over axis 1). -/
def InteractionMatrix.rowPosCount (m : InteractionMatrix) (i : ℕ) : ℕ :=
  ((List.range m.nCols).filter (fun j => decide (0 < m.entryAt i j))).length

/-- Column sum (matrix.sum over axis 0). -/
def InteractionMatrix.colSum (m : InteractionMatrix) (j : ℕ) : ℚ :=
  ((m.entries.filter (fun e => decide (e.2.1 = j))).map (fun e => e.2.2)).sum

/-- Number of rows whose cell in column j is strictly positive. -/
def InteractionMatrix.colPosCount (m : InteractionMatrix) (j : ℕ) : ℕ :=
  ((List.range m.nRows).filter (fun i => decide (0 < m.entryAt i j))).length

/-- CollaborativeFilteringModel fitted state. -/
structure CFModel where
  global_mean : ℚ
  user_biases : List ℚ
  item_biases : List ℚ
  user_factors : List (List ℚ)
  item_factors : List (List ℚ)
deriving DecidableEq, Repr

/-- CollaborativeFilteringModel.fit, with the factor matrices produced by
the SVD supplied as arguments uf and itf.  Biases follow the source exactly:
the safe division yields mean-or-zero and the global mean is subtracted from
every component afterwards. -/
def cf_fit_with (uf itf : List (List ℚ)) (m : InteractionMatrix) : CFModel :=
  let gm := m.dataMean
  ⟨gm,
   (List.range m.nRows).map (fun i =>
     (if m.rowPosCount i ≠ 0 then m.rowSum i / (m.rowPosCount i : ℚ) else 0) - gm),
   (List.range m.nCols).map (fun j =>
     (if m.colPosCount j ≠ 0 then m.colSum j / (m.colPosCount j : ℚ) else 0) - gm),
   uf, itf⟩

/-- Dot product of two coordinate lists (np.dot on equal-length vectors). -/
def dot (v w : List ℚ) : ℚ := (List.zipWith (fun a b => a * b) v w).sum

/-- Unclamped bias-corrected score of a single cell. -/
def CFModel.rawScore (m : CFModel) (u i : ℕ) : ℚ :=
  m.global_mean + m.user_biases.getD u 0 + m.item_biases.getD i 0 +
    dot (m.user_factors.getD u []) (m.item_factors.getD i [])

/-- CollaborativeFilteringModel.predict: global mean for an out-of-range
index, otherwise the bias-corrected score clamped to the interval 0 to 5. -/
def CFModel.predict (m : CFModel) (u i : ℕ) : ℚ :=
  if m.user_factors.length ≤ u ∨ m.item_factors.length ≤ i then m.global_mean
  else max 0 (min 5 (m.rawScore u i))

/-- Stable sort in descending order of a rational key (list.sort with
reverse=True). -/
def sortDescBy {α : Type} (key : α → ℚ) (l : List α) : List α :=
  List.insertionSort (fun a b => key b ≤ key a) l

/-- CollaborativeFilteringModel.get_user_recommendations: empty for an
out-of-range user, otherwise every item scored by the vectorized unclamped
formula, the excluded indices removed, sorted by descending score, top n. -/
def CFModel.get_user_recommendations (m : CFModel) (u n : ℕ)
    (exclude_seen : List ℕ) : List (ℕ × ℚ) :=
  if m.user_factors.length ≤ u then []
  else
    let user_vector := m.user_factors.getD u []
    let item_scores := ((List.range m.item_factors.length).map
      (fun i => (i, dot (m.item_factors.getD i []) user_vector +
                    m.item_biases.getD i 0 +
                    m.user_biases.getD u 0 + m.global_mean))).filter
      (fun p => decide (p.1 ∉ exclude_seen))
    (sortDescBy (fun p => p.2) item_scores).take n

/-- ContentBasedModel fitted state: the dense item-by-item similarity
matrix (the TF-IDF vectorizer and feature matrix are internal to the fit
oracle and are not read by any later operation). -/
structure CBModel where
  item_similarity_matrix : List (List ℚ)
deriving DecidableEq, Repr

/-- ContentBasedModel.get_similar_items: empty for an out-of-range item,
otherwise all other items paired with their similarity, sorted descending,
top n. -/
def CBModel.get_similar_items (m : CBModel) (item_idx n : ℕ) : List (ℕ × ℚ) :=
  if m.item_similarity_matrix.length ≤ item_idx then []
  else
    let similar := (m.item_similarity_matrix.getD item_idx []).enum.filter
      (fun p => decide (p.1 ≠ item_idx))
    (sortDescBy (fun p => p.2) similar).take n

/-- Engine state (HybridRecommendationEngine fields).  The Python initial
values None for the sub-models and the matrix are modelled by empty states;
no operation reads them while is_trained is false. -/
structure Engine where
  cf_weight : ℚ
  cb_weight : ℚ
  data_processor : DataProcessor
  cf_model : CFModel
  cb_model : CBModel
  interaction_matrix : InteractionMatrix
  user_item_interactions : List (ℕ × List ℕ)
  is_trained : Bool
deriving DecidableEq, Repr

/-- HybridRecommendationEngine constructor: default DataProcessor (its
min_interactions default is 5), empty sub-models, untrained. -/
def mkEngine (cf_weight cb_weight : ℚ) : Engine :=
  ⟨cf_weight, cb_weight, ⟨5, [], []⟩, ⟨0, [], [], [], []⟩, ⟨[]⟩, ⟨0, 0, []⟩, [], false⟩

/-- Record one (user index, item index) pair in the seen-set store: find or
append the user entry, add the item index to its set if absent. -/
def addSeen : List (ℕ × List ℕ) → ℕ → ℕ → List (ℕ × List ℕ)
  | [], u, i => [(u, [i])]
  | (k, s) :: rest, u, i =>
    if k = u then (k, if i ∈ s then s else s ++ [i]) :: rest
    else (k, s) :: addSeen rest u i

/-- The seen-set accumulation loop of train, starting from the existing
user_item_interactions map (the source never resets it). -/
def accumulateSeen (m : List (ℕ × List ℕ)) (enc : List EncodedInteraction) :
    List (ℕ × List ℕ) :=
  enc.foldl (fun acc r => addSeen acc r.user_idx r.item_idx) m

/-- SeenSet of a user index (user_item_interactions.get(user_idx, set())). -/
def seenOf (m : List (ℕ × List ℕ)) (u : ℕ) : List ℕ :=
  (m.lookup u).getD []

/-- First phase of HybridRecommendationEngine.train, before the sub-model
fits: preprocessing, matrix construction and the seen-set accumulation, all
assigned to the engine fields in source order.  Returns the updated engine
and the built matrix. -/
def trainPre (e : Engine) (interactions_df : List Interaction) :
    Engine × InteractionMatrix :=
  let pr := preprocessDP e.data_processor interactions_df
  let enc := encodeRows pr.1 pr.2
  let matrix := create_interaction_matrix pr.1 enc
  ({ e with data_processor := pr.1, interaction_matrix := matrix,
            user_item_interactions := accumulateSeen e.user_item_interactions enc },
   matrix)

/-- Second phase of train: install the CF fit, then the CB fit, then set the
trained flag; a failure in either fit aborts with the engine as mutated so
far and the re-raised error message (the CF failure is reported first, as
the source reaches the CB fit only after the CF fit succeeds). -/
def trainRest (cfRes : Except String (List (List ℚ) × List (List ℚ)))
    (cbRes : Except String CBModel) (e1 : Engine) (matrix : InteractionMatrix) :
    Engine × Option String :=
  match cfRes with
  | .error s => (e1, some s)
  | .ok (uf, itf) =>
    let e2 := { e1 with cf_model := cf_fit_with uf itf matrix }
    match cbRes with
    | .error s => (e2, some s)
    | .ok cb => ({ e2 with cb_model := cb, is_trained := true }, none)

/-- HybridRecommendationEngine.train.  The SVD factorization and the
content-model fit are the two external library computations and are passed
as oracles that may fail; the second component of the result is the
re-raised error, none on success.  Field updates happen in source order:
processor, matrix and seen store first, then the CF fit, then the CB fit,
and the trained flag only after both fits succeed. -/
def train {Items : Type}
    (cfF : InteractionMatrix → Except String (List (List ℚ) × List (List ℚ)))
    (cbF : Items → List String → Except String CBModel)
    (e : Engine) (interactions_df : List Interaction) (items_df : Items)
    (content_features : List String) : Engine × Option String :=
  trainRest (cfF (trainPre e interactions_df).2) (cbF items_df content_features)
    (trainPre e interactions_df).1 (trainPre e interactions_df).2

/-- Association-list update mirroring a Python dict: add v to the value at
key k, appending a new entry when the key is absent. -/
def updAdd : List (ℕ × ℚ) → ℕ → ℚ → List (ℕ × ℚ)
  | [], k, v => [(k, v)]
  | (k2, v2) :: rest, k, v =>
    if k2 = k then (k2, v2 + v) :: rest else (k2, v2) :: updAdd rest k v

/-- Dict lookup with default 0 (scores.get(item_idx, 0)). -/
def lookupD (l : List (ℕ × ℚ)) (k : ℕ) : ℚ := (l.lookup k).getD 0

/-- Keys of a score dict. -/
def keys (l : List (ℕ × ℚ)) : List ℕ := l.map (fun p => p.1)

/-- Output record of get_recommendations. -/
structure Recommendation where
  item_id : String
  score : ℚ
  cf_score : ℚ
  cb_score : ℚ
  method : String
deriving DecidableEq, Repr

/-- SeenSet consulted by get_recommendations for a known user index. -/
def seenItems (e : Engine) (u : ℕ) : List ℕ :=
  seenOf e.user_item_interactions u

/-- CF candidate dict: two times n recommendations excluding seen items,
keyed by item index (cf_scores). -/
def cfScores (e : Engine) (u n : ℕ) : List (ℕ × ℚ) :=
  e.cf_model.get_user_recommendations u (n * 2) (seenItems e u)

/-- Inner loop of the CB accumulation: add each similar item that is not
already seen into the score dict. -/
def cbAddSims (seen : List ℕ) (acc : List (ℕ × ℚ)) (sims : List (ℕ × ℚ)) :
    List (ℕ × ℚ) :=
  sims.foldl (fun acc2 p => if p.1 ∈ seen then acc2 else updAdd acc2 p.1 p.2) acc

/-- CB candidate dict: for each of the first five seen items, the top 20
similar items; similarity contributions are summed over seeds and items
already seen are skipped (cb_scores). -/
def cbScoresOf (e : Engine) (seen : List ℕ) : List (ℕ × ℚ) :=
  (seen.take 5).foldl (fun acc seen_item =>
    cbAddSims seen acc (e.cb_model.get_similar_items seen_item 20)) []

/-- CB candidate dict of a user. -/
def cbScores (e : Engine) (u : ℕ) : List (ℕ × ℚ) :=
  cbScoresOf e (seenItems e u)

/-- Score fusion over the union of the CF and CB candidate keys: each
candidate becomes (item index, weighted hybrid score, cf score, cb score),
missing contributions defaulting to 0. -/
def fuse (cf_weight cb_weight : ℚ) (cf_scores cb_scores : List (ℕ × ℚ)) :
    List (ℕ × ℚ × ℚ × ℚ) :=
  let all_items := keys cf_scores ++
    (keys cb_scores).filter (fun i => decide (i ∉ keys cf_scores))
  all_items.map (fun i =>
    (i, cf_weight * lookupD cf_scores i + cb_weight * lookupD cb_scores i,
     lookupD cf_scores i, lookupD cb_scores i))

/-- Fused candidate list of a known user before ranking (hybrid_scores). -/
def hybridAll (e : Engine) (u n : ℕ) : List (ℕ × ℚ × ℚ × ℚ) :=
  fuse e.cf_weight e.cb_weight (cfScores e u n) (cbScores e u)

/-- Ranked top-n hybrid candidates of a known user. -/
def hybridTopN (e : Engine) (u n : ℕ) : List (ℕ × ℚ × ℚ × ℚ) :=
  (sortDescBy (fun x => x.2.1) (hybridAll e u n)).take n

/-- Popularity ranking of item indices by descending column sum
(np.argsort of the column sums, reversed, truncated to n). -/
def popularIdx (e : Engine) (n : ℕ) : List ℕ :=
  (sortDescBy (fun j => e.interaction_matrix.colSum j)
    (List.range e.interaction_matrix.nCols)).take n

/-- HybridRecommendationEngine._get_popular_items. -/
def popularItems (e : Engine) (n : ℕ) : List Recommendation :=
  (popularIdx e n).map (fun j =>
    ⟨e.data_processor.item_ids.getD j "", e.interaction_matrix.colSum j, 0, 0, "popular"⟩)

/-- HybridRecommendationEngine.get_recommendations. -/
def get_recommendations (e : Engine) (user_id : String) (n : ℕ) :
    Except String (List Recommendation) :=
  if e.is_trained = false then
    .error "Model must be trained before making recommendations"
  else if user_id ∈ e.data_processor.user_ids then
    .ok ((hybridTopN e (e.data_processor.user_ids.indexOf user_id) n).map
      (fun x => ⟨e.data_processor.item_ids.getD x.1 "", x.2.1, x.2.2.1, x.2.2.2, "hybrid"⟩))
  else
    .ok (popularItems e n)

/-- Outcome of evaluate: the infinite sentinel mapping, or the list of
(prediction, actual) pairs from which the metrics are computed.  The final
metric formulas are the separate definitions below. -/
inductive EvalOutcome where
  | sentinel
  | result (rows : List (ℚ × ℚ))
deriving DecidableEq, Repr

/-- HybridRecommendationEngine.evaluate up to the per-row predictions: the
test rows are restricted to known users and items, the empty restriction
yields the sentinel, and each retained row is predicted with the CF model,
the actual being the rating defaulted to 1. -/
def evaluate (e : Engine) (test_interactions : List Interaction) :
    Except String EvalOutcome :=
  if e.is_trained = false then
    .error "Model must be trained before evaluation"
  else
    let test_clean := test_interactions.filter (fun r =>
      decide (r.user_id ∈ e.data_processor.user_ids) &&
      decide (r.item_id ∈ e.data_processor.item_ids))
    if test_clean.isEmpty then .ok .sentinel
    else
      .ok (.result (test_clean.map (fun r =>
        (e.cf_model.predict (e.data_processor.user_ids.indexOf r.user_id)
          (e.data_processor.item_ids.indexOf r.item_id), r.rating.getD 1))))

/-- Modelled from the spec: the tail of evaluate (the mean-squared-error
aggregation feeding the rmse, whose square root and the return statement are
absent from the available source text) computes the mean squared difference
of actuals and predictions over the retained rows. -/
def meanSquaredError (rows : List (ℚ × ℚ)) : ℚ :=
  ((rows.map (fun p => (p.2 - p.1) ^ 2)).sum) / rows.length

/-- Modelled from the spec: the mean-absolute-error aggregation of evaluate
(truncated in the available source text) computes the mean absolute
difference of actuals and predictions over the retained rows. -/
def meanAbsoluteError (rows : List (ℚ × ℚ)) : ℚ :=
  ((rows.map (fun p => |p.2 - p.1|)).sum) / rows.length

/- ------------------------------------------------------------------ -/
/- Helper lemmas                                                       -/
/- ------------------------------------------------------------------ -/

theorem dot_comm_lists (v w : List ℚ) : dot v w = dot w v :=
  congrArg List.sum (List.zipWith_comm_of_comm _ mul_comm v w)

theorem sortDescBy_sorted {α : Type} (key : α → ℚ) (l : List α) :
    List.Sorted (fun a b => key b ≤ key a) (sortDescBy key l) := by
  haveI : IsTotal α (fun a b => key b ≤ key a) := ⟨fun a b => le_total (key b) (key a)⟩
  haveI : IsTrans α (fun a b => key b ≤ key a) := ⟨fun _ _ _ h1 h2 => le_trans h2 h1⟩
  exact List.sorted_insertionSort _ l

theorem mem_sortDescBy {α : Type} (key : α → ℚ) (l : List α) (x : α) :
    x ∈ sortDescBy key l ↔ x ∈ l :=
  List.mem_insertionSort _

/-- Decomposition of membership in the result of get_user_recommendations:
every returned pair avoids the exclusion set, has an in-range item index,
and carries the vectorized unclamped score of its item. -/
theorem mem_rec_spec (m : CFModel) (u n : ℕ) (ex : List ℕ) (p : ℕ × ℚ)
    (hp : p ∈ m.get_user_recommendations u n ex) :
    p.1 ∉ ex ∧ p.1 < m.item_factors.length ∧
      p.2 = dot (m.item_factors.getD p.1 []) (m.user_factors.getD u []) +
            m.item_biases.getD p.1 0 + m.user_biases.getD u 0 + m.global_mean := by
  by_cases hu : m.user_factors.length ≤ u
  · simp [CFModel.get_user_recommendations, if_pos hu] at hp
  · simp only [CFModel.get_user_recommendations, if_neg hu] at hp
    have hp2 := List.mem_of_mem_take hp
    rw [mem_sortDescBy, List.mem_filter] at hp2
    obtain ⟨hmem, hnotex⟩ := hp2
    rw [List.mem_map] at hmem
    obtain ⟨i, hi, hpe⟩ := hmem
    rw [List.mem_range] at hi
    subst hpe
    exact ⟨of_decide_eq_true hnotex, hi, rfl⟩

/- ------------------------------------------------------------------ -/
/- C7: predict stays in the closed interval 0 to 5 on in-range indices -/
/- ------------------------------------------------------------------ -/

/-- C7: for every fitted model and every user index and item index in the
currently fitted range, predict returns a value between 0 and 5. -/
theorem predict_clamped_range (m : CFModel) (u i : ℕ)
    (hu : u < m.user_factors.length) (hi : i < m.item_factors.length) :
    0 ≤ m.predict u i ∧ m.predict u i ≤ 5 := by
  have hcond : ¬(m.user_factors.length ≤ u ∨ m.item_factors.length ≤ i) := by
    push_neg
    exact ⟨hu, hi⟩
  rw [CFModel.predict, if_neg hcond]
  exact ⟨le_max_left 0 _, max_le (by norm_num) (min_le_left 5 _)⟩

/-- Witness for C7 at a concrete one-by-one model. -/
theorem predict_clamped_range_witness :
    0 ≤ CFModel.predict ⟨0, [0], [0], [[1]], [[1]]⟩ 0 0 ∧
      CFModel.predict ⟨0, [0], [0], [[1]], [[1]]⟩ 0 0 ≤ 5 :=
  predict_clamped_range ⟨0, [0], [0], [[1]], [[1]]⟩ 0 0 (by decide) (by decide)

/- ------------------------------------------------------------------ -/
/- C3: out-of-range indices yield defaults, never errors               -/
/- ------------------------------------------------------------------ -/

/-- C3: an out-of-range index makes predict return the global mean, makes
get_user_recommendations return the empty list, and makes get_similar_items
return the empty list; all three operations are total functions. -/
theorem out_of_range_defaults (m : CFModel) (cb : CBModel) (u i u2 j n n2 : ℕ)
    (exclude_seen : List ℕ)
    (hpred : m.user_factors.length ≤ u ∨ m.item_factors.length ≤ i)
    (hrec : m.user_factors.length ≤ u2)
    (hsim : cb.item_similarity_matrix.length ≤ j) :
    m.predict u i = m.global_mean ∧
    m.get_user_recommendations u2 n exclude_seen = [] ∧
    cb.get_similar_items j n2 = [] := by
  refine ⟨?_, ?_, ?_⟩
  · rw [CFModel.predict, if_pos hpred]
  · simp [CFModel.get_user_recommendations, if_pos hrec]
  · simp [CBModel.get_similar_items, if_pos hsim]

/-- Witness for C3 at concrete empty models. -/
theorem out_of_range_defaults_witness :
    CFModel.predict ⟨2, [], [], [], []⟩ 0 0 = (2 : ℚ) ∧
    CFModel.get_user_recommendations ⟨2, [], [], [], []⟩ 0 3 [] = [] ∧
    CBModel.get_similar_items ⟨[]⟩ 0 3 = [] := by
  have h := out_of_range_defaults ⟨2, [], [], [], []⟩ ⟨[]⟩ 0 0 0 0 3 3 []
    (Or.inl (by decide)) (by decide) (by decide)
  exact ⟨h.1, h.2.1, h.2.2⟩

/- ------------------------------------------------------------------ -/
/- C2: batch scorer versus predict                                     -/
/- ------------------------------------------------------------------ -/

/-- Counterexample to C2 as stated: the model fitted on a one-cell matrix
with stored value 0 (so the global mean and both biases are 0) and factor
vectors (1) and (6) supplied by the factorization: the batch scorer returns
the unclamped score 6 for item 0 while predict clamps the same cell to 5. -/
theorem batch_score_unclamped_cex :
    CFModel.get_user_recommendations (cf_fit_with [[1]] [[6]] ⟨1, 1, [(0, 0, 0)]⟩)
      0 1 [] = [(0, 6)] ∧
    CFModel.predict (cf_fit_with [[1]] [[6]] ⟨1, 1, [(0, 0, 0)]⟩) 0 0 ≠ 6 := by
  constructor
  · simp [cf_fit_with, InteractionMatrix.dataMean, InteractionMatrix.dataSum,
      InteractionMatrix.rowSum, InteractionMatrix.rowPosCount, InteractionMatrix.colSum,
      InteractionMatrix.colPosCount, InteractionMatrix.entryAt,
      CFModel.get_user_recommendations, sortDescBy, dot, List.insertionSort,
      List.range, List.range.loop]
  · simp [cf_fit_with, InteractionMatrix.dataMean, InteractionMatrix.dataSum,
      InteractionMatrix.rowSum, InteractionMatrix.rowPosCount, InteractionMatrix.colSum,
      InteractionMatrix.colPosCount, InteractionMatrix.entryAt,
      CFModel.predict, CFModel.rawScore, dot, List.range, List.range.loop]
    norm_num

/-- C2 amended: each pair returned by get_user_recommendations carries the
unclamped bias-corrected score of its item, which coincides with predict
exactly when that value already lies between 0 and 5. -/
theorem batch_score_matches_raw_formula (m : CFModel) (u n : ℕ) (ex : List ℕ)
    (p : ℕ × ℚ) (hp : p ∈ m.get_user_recommendations u n ex) :
    p.2 = m.rawScore u p.1 ∧
    (0 ≤ p.2 → p.2 ≤ 5 → p.2 = m.predict u p.1) := by
  obtain ⟨hnex, hi, hscore⟩ := mem_rec_spec m u n ex p hp
  have hu : ¬ m.user_factors.length ≤ u := by
    by_contra hge
    simp [CFModel.get_user_recommendations, if_pos hge] at hp
  have hraw : p.2 = m.rawScore u p.1 := by
    rw [hscore, CFModel.rawScore, dot_comm_lists]
    ring
  refine ⟨hraw, fun h0 h5 => ?_⟩
  rw [CFModel.predict, if_neg (by push_neg; exact ⟨lt_of_not_le hu, hi⟩)]
  rw [← hraw, min_eq_right h5, max_eq_right h0]

/-- Witness for the amended C2 at the counterexample model: the returned
score for item 0 equals the raw unclamped formula there. -/
theorem batch_score_matches_raw_formula_witness :
    ((0, (6 : ℚ)) : ℕ × ℚ).2 =
      CFModel.rawScore (cf_fit_with [[1]] [[6]] ⟨1, 1, [(0, 0, 0)]⟩) 0 0 ∧
    ((0 : ℚ) ≤ (6 : ℚ) → (6 : ℚ) ≤ 5 →
      ((0, (6 : ℚ)) : ℕ × ℚ).2 =
        CFModel.predict (cf_fit_with [[1]] [[6]] ⟨1, 1, [(0, 0, 0)]⟩) 0 0) :=
  batch_score_matches_raw_formula (cf_fit_with [[1]] [[6]] ⟨1, 1, [(0, 0, 0)]⟩)
    0 1 [] (0, 6)
    (by
      simp [cf_fit_with, InteractionMatrix.dataMean, InteractionMatrix.dataSum,
        InteractionMatrix.rowSum, InteractionMatrix.rowPosCount, InteractionMatrix.colSum,
        InteractionMatrix.colPosCount, InteractionMatrix.entryAt,
        CFModel.get_user_recommendations, sortDescBy, dot, List.insertionSort,
        List.range, List.range.loop])

/- ------------------------------------------------------------------ -/
/- Dict and fusion lemmas                                              -/
/- ------------------------------------------------------------------ -/

theorem lookupD_eq_zero (l : List (ℕ × ℚ)) (k : ℕ) (h : k ∉ keys l) :
    lookupD l k = 0 := by
  induction l with
  | nil => rfl
  | cons a rest ih =>
    simp only [keys, List.map_cons, List.mem_cons, not_or] at h
    obtain ⟨h1, h2⟩ := h
    have : (k == a.1) = false := by
      exact beq_eq_false_iff_ne.mpr h1
    simp only [lookupD, List.lookup, this]
    exact ih (by simpa [keys] using h2)

theorem mem_keys_updAdd (l : List (ℕ × ℚ)) (k : ℕ) (v : ℚ) (k2 : ℕ)
    (h : k2 ∈ keys (updAdd l k v)) : k2 ∈ keys l ∨ k2 = k := by
  induction l with
  | nil =>
    simp only [updAdd, keys, List.map_cons, List.map_nil, List.mem_cons,
      List.not_mem_nil, or_false] at h
    exact Or.inr h
  | cons a rest ih =>
    simp only [updAdd] at h
    by_cases hak : a.1 = k
    · rw [if_pos hak] at h
      simp only [keys, List.map_cons, List.mem_cons] at h ⊢
      exact Or.inl h
    · rw [if_neg hak] at h
      simp only [keys, List.map_cons, List.mem_cons] at h ⊢
      rcases h with h | h
      · exact Or.inl (Or.inl h)
      · rcases ih h with h2 | h2
        · exact Or.inl (Or.inr h2)
        · exact Or.inr h2

theorem mem_keys_cbAddSims (seen : List ℕ) (sims : List (ℕ × ℚ))
    (acc : List (ℕ × ℚ)) (hacc : ∀ k ∈ keys acc, k ∉ seen) :
    ∀ k ∈ keys (cbAddSims seen acc sims), k ∉ seen := by
  induction sims generalizing acc with
  | nil => exact hacc
  | cons p rest ih =>
    simp only [cbAddSims, List.foldl_cons]
    apply ih
    intro k hk
    by_cases hp : p.1 ∈ seen
    · rw [if_pos hp] at hk
      exact hacc k hk
    · rw [if_neg hp] at hk
      rcases mem_keys_updAdd acc p.1 p.2 k hk with h | h
      · exact hacc k h
      · rw [h]
        exact hp

theorem mem_keys_cbScoresOf (e : Engine) (seen : List ℕ) (k : ℕ)
    (hk : k ∈ keys (cbScoresOf e seen)) : k ∉ seen := by
  rw [cbScoresOf] at hk
  revert hk
  have main : ∀ (seeds : List ℕ) (acc : List (ℕ × ℚ)),
      (∀ k2 ∈ keys acc, k2 ∉ seen) →
      ∀ k2 ∈ keys (seeds.foldl (fun acc2 seen_item =>
        cbAddSims seen acc2 (e.cb_model.get_similar_items seen_item 20)) acc),
        k2 ∉ seen := by
    intro seeds
    induction seeds with
    | nil => intro acc hacc; exact hacc
    | cons s rest ih =>
      intro acc hacc
      simp only [List.foldl_cons]
      exact ih _ (mem_keys_cbAddSims seen _ acc hacc)
  exact fun hk => main (seen.take 5) [] (by simp [keys]) k hk

/-- Decomposition of membership in the fused candidate list: the item index
comes from one of the two candidate dicts and the three scores are the
weighted sum and the two dict lookups with default 0. -/
theorem mem_fuse_spec (cfw cbw : ℚ) (cf cb : List (ℕ × ℚ)) (x : ℕ × ℚ × ℚ × ℚ)
    (hx : x ∈ fuse cfw cbw cf cb) :
    (x.1 ∈ keys cf ∨ x.1 ∈ keys cb) ∧
    x.2.1 = cfw * lookupD cf x.1 + cbw * lookupD cb x.1 ∧
    x.2.2.1 = lookupD cf x.1 ∧ x.2.2.2 = lookupD cb x.1 := by
  simp only [fuse] at hx
  rw [List.mem_map] at hx
  obtain ⟨i, hi, hpe⟩ := hx
  subst hpe
  refine ⟨?_, rfl, rfl, rfl⟩
  rcases List.mem_append.mp hi with h | h
  · exact Or.inl h
  · exact Or.inr (List.mem_filter.mp h).1

/- ------------------------------------------------------------------ -/
/- C8: single-source candidates in the hybrid fusion                   -/
/- ------------------------------------------------------------------ -/

/-- C8: in the fused candidate list of a known user, a candidate absent
from the CB dict has hybrid score exactly cf_weight times its CF score and
CB score 0; symmetrically, a candidate absent from the CF dict has hybrid
score exactly cb_weight times its CB score and CF score 0. -/
theorem fusion_single_source_scores (e : Engine) (u n : ℕ) (x : ℕ × ℚ × ℚ × ℚ)
    (hx : x ∈ hybridAll e u n) :
    (x.1 ∉ keys (cbScores e u) → x.2.1 = e.cf_weight * x.2.2.1 ∧ x.2.2.2 = 0) ∧
    (x.1 ∉ keys (cfScores e u n) → x.2.1 = e.cb_weight * x.2.2.2 ∧ x.2.2.1 = 0) := by
  obtain ⟨hmem, hh, hcf, hcb⟩ := mem_fuse_spec e.cf_weight e.cb_weight _ _ x hx
  constructor
  · intro hnotcb
    have hzero := lookupD_eq_zero _ _ hnotcb
    constructor
    · rw [hh, hcf, hzero, mul_zero, add_zero]
    · rw [hcb, hzero]
  · intro hnotcf
    have hzero := lookupD_eq_zero _ _ hnotcf
    constructor
    · rw [hh, hcb, hzero, mul_zero, zero_add]
    · rw [hcf, hzero]

/-- Witness for C8 at a concrete engine whose single candidate is CF-only. -/
theorem fusion_single_source_scores_witness :
    ((0, (1 : ℚ), (1 : ℚ), (0 : ℚ)) ∈
      hybridAll ⟨1, 1, ⟨5, ["u0"], ["i0"]⟩, ⟨0, [0], [0], [[1]], [[1]]⟩, ⟨[]⟩,
        ⟨1, 1, [(0, 0, 1)]⟩, [], true⟩ 0 1) ∧
    ((0 : ℕ) ∉ keys (cbScores ⟨1, 1, ⟨5, ["u0"], ["i0"]⟩, ⟨0, [0], [0], [[1]], [[1]]⟩,
        ⟨[]⟩, ⟨1, 1, [(0, 0, 1)]⟩, [], true⟩ 0)) ∧
    ((0, (1 : ℚ), (1 : ℚ), (0 : ℚ)).2.1 =
      (⟨1, 1, ⟨5, ["u0"], ["i0"]⟩, ⟨0, [0], [0], [[1]], [[1]]⟩, ⟨[]⟩,
        ⟨1, 1, [(0, 0, 1)]⟩, [], true⟩ : Engine).cf_weight * (0, (1 : ℚ), (1 : ℚ), (0 : ℚ)).2.2.1 ∧
      (0, (1 : ℚ), (1 : ℚ), (0 : ℚ)).2.2.2 = 0) := by
  have hmem : ((0, (1 : ℚ), (1 : ℚ), (0 : ℚ)) ∈
      hybridAll ⟨1, 1, ⟨5, ["u0"], ["i0"]⟩, ⟨0, [0], [0], [[1]], [[1]]⟩, ⟨[]⟩,
        ⟨1, 1, [(0, 0, 1)]⟩, [], true⟩ 0 1) := by
    simp [hybridAll, fuse, cfScores, cbScores, cbScoresOf, seenItems, seenOf, keys,
      lookupD, CFModel.get_user_recommendations, sortDescBy, dot, List.insertionSort,
      List.range, List.range.loop, List.lookup]
  have hnot : ((0 : ℕ) ∉ keys (cbScores ⟨1, 1, ⟨5, ["u0"], ["i0"]⟩,
      ⟨0, [0], [0], [[1]], [[1]]⟩, ⟨[]⟩, ⟨1, 1, [(0, 0, 1)]⟩, [], true⟩ 0)) := by
    simp [cbScores, cbScoresOf, seenItems, seenOf, keys, List.lookup]
  exact ⟨hmem, hnot, (fusion_single_source_scores _ 0 1 _ hmem).1 hnot⟩

/- ------------------------------------------------------------------ -/
/- C4: recommendations for a known user never contain seen items       -/
/- ------------------------------------------------------------------ -/

/-- C4: for a trained engine and a known user, get_recommendations returns
the decoded ranked hybrid candidates, and no candidate item index lies in
the SeenSet of that user: the CF branch excludes seen items and the CB
branch skips them, so the fused union contains none. -/
theorem known_user_excludes_seen (e : Engine) (user_id : String) (n : ℕ)
    (ht : e.is_trained = true) (hk : user_id ∈ e.data_processor.user_ids) :
    get_recommendations e user_id n =
      .ok ((hybridTopN e (e.data_processor.user_ids.indexOf user_id) n).map
        (fun x => ⟨e.data_processor.item_ids.getD x.1 "", x.2.1, x.2.2.1, x.2.2.2, "hybrid"⟩)) ∧
    ∀ x ∈ hybridTopN e (e.data_processor.user_ids.indexOf user_id) n,
      x.1 ∉ seenItems e (e.data_processor.user_ids.indexOf user_id) := by
  constructor
  · rw [get_recommendations, if_neg (by simp [ht]), if_pos hk]
  · intro x hx
    have hx2 : x ∈ hybridAll e (e.data_processor.user_ids.indexOf user_id) n := by
      rw [hybridTopN] at hx
      exact (mem_sortDescBy _ _ _).mp (List.mem_of_mem_take hx)
    rw [hybridAll] at hx2
    obtain ⟨hmem, _, _, _⟩ := mem_fuse_spec _ _ _ _ x hx2
    rcases hmem with h | h
    · rw [cfScores, keys, List.mem_map] at h
      obtain ⟨p, hp, hfst⟩ := h
      have hpx := (mem_rec_spec _ _ _ _ p hp).1
      rw [hfst] at hpx
      exact hpx
    · exact mem_keys_cbScoresOf e _ _ h

/-- Witness for C4 at a concrete one-user, one-item trained engine. -/
theorem known_user_excludes_seen_witness :
    get_recommendations ⟨1, 1, ⟨5, ["u0"], ["i0"]⟩, ⟨0, [0], [0], [[1]], [[1]]⟩, ⟨[]⟩,
        ⟨1, 1, [(0, 0, 1)]⟩, [], true⟩ "u0" 1 =
      .ok ((hybridTopN ⟨1, 1, ⟨5, ["u0"], ["i0"]⟩, ⟨0, [0], [0], [[1]], [[1]]⟩, ⟨[]⟩,
          ⟨1, 1, [(0, 0, 1)]⟩, [], true⟩ (List.indexOf "u0" ["u0"]) 1).map
        (fun x => ⟨List.getD ["i0"] x.1 "", x.2.1, x.2.2.1, x.2.2.2, "hybrid"⟩)) ∧
    ∀ x ∈ hybridTopN ⟨1, 1, ⟨5, ["u0"], ["i0"]⟩, ⟨0, [0], [0], [[1]], [[1]]⟩, ⟨[]⟩,
        ⟨1, 1, [(0, 0, 1)]⟩, [], true⟩ (List.indexOf "u0" ["u0"]) 1,
      x.1 ∉ seenItems ⟨1, 1, ⟨5, ["u0"], ["i0"]⟩, ⟨0, [0], [0], [[1]], [[1]]⟩, ⟨[]⟩,
        ⟨1, 1, [(0, 0, 1)]⟩, [], true⟩ (List.indexOf "u0" ["u0"]) :=
  known_user_excludes_seen _ "u0" 1 rfl (by decide)

/- ------------------------------------------------------------------ -/
/- C5: cold-start popularity fallback                                  -/
/- ------------------------------------------------------------------ -/

/-- C5: for a trained engine and an unknown user, get_recommendations
returns the popularity fallback: at most n records, ordered by descending
score, each record having zero CF and CB scores, method popular, and score
equal to the aggregate popularity (column sum) of its decoded item. -/
theorem cold_start_popularity (e : Engine) (user_id : String) (n : ℕ)
    (ht : e.is_trained = true) (hu : user_id ∉ e.data_processor.user_ids) :
    get_recommendations e user_id n = .ok (popularItems e n) ∧
    (popularItems e n).length ≤ n ∧
    List.Sorted (fun a b : Recommendation => b.score ≤ a.score) (popularItems e n) ∧
    ∀ r ∈ popularItems e n, r.cf_score = 0 ∧ r.cb_score = 0 ∧ r.method = "popular" ∧
      ∃ j < e.interaction_matrix.nCols,
        r.item_id = e.data_processor.item_ids.getD j "" ∧
        r.score = e.interaction_matrix.colSum j := by
  refine ⟨?_, ?_, ?_, ?_⟩
  · rw [get_recommendations, if_neg (by simp [ht]), if_neg hu]
  · rw [popularItems, List.length_map, popularIdx]
    exact List.length_take_le n _
  · have hs : List.Pairwise
        (fun a b => e.interaction_matrix.colSum b ≤ e.interaction_matrix.colSum a)
        (popularIdx e n) := by
      rw [popularIdx]
      exact List.Pairwise.sublist (List.take_sublist n _)
        (sortDescBy_sorted (fun j => e.interaction_matrix.colSum j) _)
    rw [popularItems]
    exact List.Pairwise.map _ (fun a b h => h) hs
  · intro r hr
    rw [popularItems, List.mem_map] at hr
    obtain ⟨j, hj, hre⟩ := hr
    have hjc : j < e.interaction_matrix.nCols := by
      rw [popularIdx] at hj
      have := (mem_sortDescBy _ _ _).mp (List.mem_of_mem_take hj)
      exact List.mem_range.mp this
    subst hre
    exact ⟨rfl, rfl, rfl, j, hjc, rfl, rfl⟩

/-- Witness for C5 at a concrete trained engine and an unknown user id. -/
theorem cold_start_popularity_witness :
    get_recommendations ⟨1, 1, ⟨5, ["u0"], ["i0"]⟩, ⟨0, [0], [0], [[1]], [[1]]⟩, ⟨[]⟩,
        ⟨1, 1, [(0, 0, 1)]⟩, [], true⟩ "ux" 1 =
      .ok (popularItems ⟨1, 1, ⟨5, ["u0"], ["i0"]⟩, ⟨0, [0], [0], [[1]], [[1]]⟩, ⟨[]⟩,
        ⟨1, 1, [(0, 0, 1)]⟩, [], true⟩ 1) ∧
    (popularItems ⟨1, 1, ⟨5, ["u0"], ["i0"]⟩, ⟨0, [0], [0], [[1]], [[1]]⟩, ⟨[]⟩,
        ⟨1, 1, [(0, 0, 1)]⟩, [], true⟩ 1).length ≤ 1 ∧
    List.Sorted (fun a b : Recommendation => b.score ≤ a.score)
      (popularItems ⟨1, 1, ⟨5, ["u0"], ["i0"]⟩, ⟨0, [0], [0], [[1]], [[1]]⟩, ⟨[]⟩,
        ⟨1, 1, [(0, 0, 1)]⟩, [], true⟩ 1) ∧
    ∀ r ∈ popularItems ⟨1, 1, ⟨5, ["u0"], ["i0"]⟩, ⟨0, [0], [0], [[1]], [[1]]⟩, ⟨[]⟩,
        ⟨1, 1, [(0, 0, 1)]⟩, [], true⟩ 1,
      r.cf_score = 0 ∧ r.cb_score = 0 ∧ r.method = "popular" ∧
      ∃ j < (1 : ℕ), r.item_id = List.getD ["i0"] j "" ∧
        r.score = InteractionMatrix.colSum ⟨1, 1, [(0, 0, 1)]⟩ j :=
  cold_start_popularity _ "ux" 1 rfl (by decide)

/- ------------------------------------------------------------------ -/
/- C9: evaluate restricts, returns the sentinel, never raises          -/
/- ------------------------------------------------------------------ -/

/-- C9: on a trained engine evaluate never raises; it returns the sentinel
exactly when no test row has both a known user and a known item; and a
non-sentinel result consists of exactly the retained test rows, each
predicted with the CF model and paired with its rating defaulted to 1 -
no retained row is dropped and nothing else is emitted. -/
theorem evaluate_restriction_sentinel (e : Engine) (test : List Interaction)
    (ht : e.is_trained = true) :
    (∃ out, evaluate e test = .ok out) ∧
    (evaluate e test = .ok .sentinel ↔
      ∀ r ∈ test, ¬(r.user_id ∈ e.data_processor.user_ids ∧
                    r.item_id ∈ e.data_processor.item_ids)) ∧
    (∀ rows, evaluate e test = .ok (.result rows) →
      rows = (test.filter (fun r =>
        decide (r.user_id ∈ e.data_processor.user_ids) &&
        decide (r.item_id ∈ e.data_processor.item_ids))).map (fun r =>
          (e.cf_model.predict (e.data_processor.user_ids.indexOf r.user_id)
            (e.data_processor.item_ids.indexOf r.item_id), r.rating.getD 1))) := by
  have hnt : ¬ e.is_trained = false := by simp [ht]
  have hchar : (test.filter (fun r =>
      decide (r.user_id ∈ e.data_processor.user_ids) &&
      decide (r.item_id ∈ e.data_processor.item_ids))).isEmpty = true ↔
      ∀ r ∈ test, ¬(r.user_id ∈ e.data_processor.user_ids ∧
                    r.item_id ∈ e.data_processor.item_ids) := by
    rw [List.isEmpty_iff, List.filter_eq_nil_iff]
    simp [Bool.and_eq_true, decide_eq_true_eq]
  by_cases hE : (test.filter (fun r =>
      decide (r.user_id ∈ e.data_processor.user_ids) &&
      decide (r.item_id ∈ e.data_processor.item_ids))).isEmpty = true
  · have heval : evaluate e test = .ok .sentinel := by
      rw [evaluate, if_neg hnt]
      simp only [hE, if_true]
    refine ⟨⟨.sentinel, heval⟩, ?_, ?_⟩
    · rw [heval]
      simp only [Except.ok.injEq, true_iff]
      exact fun r hr => hchar.mp hE r hr
    · intro rows hrows
      rw [heval] at hrows
      cases hrows
  · have heval : evaluate e test = .ok (.result ((test.filter (fun r =>
        decide (r.user_id ∈ e.data_processor.user_ids) &&
        decide (r.item_id ∈ e.data_processor.item_ids))).map (fun r =>
          (e.cf_model.predict (e.data_processor.user_ids.indexOf r.user_id)
            (e.data_processor.item_ids.indexOf r.item_id), r.rating.getD 1)))) := by
      rw [evaluate, if_neg hnt]
      simp only [Bool.not_eq_true] at hE
      simp only [hE, Bool.false_eq_true, if_false]
    refine ⟨⟨_, heval⟩, ?_, ?_⟩
    · rw [heval]
      constructor
      · intro hs
        cases hs
      · intro hall
        exact absurd (hchar.mpr hall) hE
    · intro rows hrows
      rw [heval] at hrows
      obtain rfl : _ = rows := congrArg (fun o => match o with
        | Except.ok (EvalOutcome.result rs) => rs
        | _ => []) hrows
      rfl

/-- Witness for C9 at a concrete trained engine with an overlapping and a
non-overlapping test row. -/
theorem evaluate_restriction_sentinel_witness :
    (∃ out, evaluate ⟨1, 1, ⟨5, ["u0"], ["i0"]⟩, ⟨0, [0], [0], [[1]], [[1]]⟩, ⟨[]⟩,
        ⟨1, 1, [(0, 0, 1)]⟩, [], true⟩ [⟨"u0", "i0", some 4⟩, ⟨"ux", "i0", none⟩] = .ok out) ∧
    (evaluate ⟨1, 1, ⟨5, ["u0"], ["i0"]⟩, ⟨0, [0], [0], [[1]], [[1]]⟩, ⟨[]⟩,
        ⟨1, 1, [(0, 0, 1)]⟩, [], true⟩ [⟨"u0", "i0", some 4⟩, ⟨"ux", "i0", none⟩] =
          .ok .sentinel ↔
      ∀ r ∈ ([⟨"u0", "i0", some 4⟩, ⟨"ux", "i0", none⟩] : List Interaction),
        ¬(r.user_id ∈ ["u0"] ∧ r.item_id ∈ ["i0"])) ∧
    (∀ rows, evaluate ⟨1, 1, ⟨5, ["u0"], ["i0"]⟩, ⟨0, [0], [0], [[1]], [[1]]⟩, ⟨[]⟩,
        ⟨1, 1, [(0, 0, 1)]⟩, [], true⟩ [⟨"u0", "i0", some 4⟩, ⟨"ux", "i0", none⟩] =
          .ok (.result rows) →
      rows = (([⟨"u0", "i0", some 4⟩, ⟨"ux", "i0", none⟩] : List Interaction).filter
        (fun r => decide (r.user_id ∈ ["u0"]) && decide (r.item_id ∈ ["i0"]))).map
        (fun r => (CFModel.predict ⟨0, [0], [0], [[1]], [[1]]⟩
          (List.indexOf r.user_id ["u0"]) (List.indexOf r.item_id ["i0"]),
          r.rating.getD 1))) :=
  evaluate_restriction_sentinel _ _ rfl

/- ------------------------------------------------------------------ -/
/- C10: a failed train leaves the engine observably untrained          -/
/- ------------------------------------------------------------------ -/

theorem train_fail_keeps_flag {Items : Type}
    (cfF : InteractionMatrix → Except String (List (List ℚ) × List (List ℚ)))
    (cbF : Items → List String → Except String CBModel)
    (e : Engine) (interactions_df : List Interaction) (items_df : Items)
    (content_features : List String)
    (hf : (train cfF cbF e interactions_df items_df content_features).2.isSome = true) :
    (train cfF cbF e interactions_df items_df content_features).1.is_trained =
      e.is_trained := by
  rw [train] at hf ⊢
  cases hcf : cfF (trainPre e interactions_df).2 with
  | error s => rfl
  | ok p =>
    obtain ⟨uf, itf⟩ := p
    cases hcb : cbF items_df content_features with
    | error s => rfl
    | ok cb =>
      rw [hcf, hcb] at hf
      simp [trainRest] at hf

/-- C10: on an engine whose trained flag is false, any failing train run
(signalled error in the second component) leaves the flag false, and both
get_recommendations and evaluate on the resulting engine still raise the
untrained-model errors. -/
theorem failed_train_stays_untrained {Items : Type}
    (cfF : InteractionMatrix → Except String (List (List ℚ) × List (List ℚ)))
    (cbF : Items → List String → Except String CBModel)
    (e : Engine) (interactions_df : List Interaction) (items_df : Items)
    (content_features : List String)
    (he : e.is_trained = false)
    (hf : (train cfF cbF e interactions_df items_df content_features).2.isSome = true) :
    (train cfF cbF e interactions_df items_df content_features).1.is_trained = false ∧
    (∀ user_id n,
      get_recommendations (train cfF cbF e interactions_df items_df content_features).1
        user_id n = .error "Model must be trained before making recommendations") ∧
    (∀ test,
      evaluate (train cfF cbF e interactions_df items_df content_features).1 test =
        .error "Model must be trained before evaluation") := by
  have hflag := (train_fail_keeps_flag cfF cbF e interactions_df items_df
    content_features hf).trans he
  refine ⟨hflag, ?_, ?_⟩
  · intro user_id n
    rw [get_recommendations, if_pos hflag]
  · intro test
    rw [evaluate, if_pos hflag]

/-- Witness for C10: a CF fit oracle that always fails, applied to a fresh
engine and an empty dataset. -/
theorem failed_train_stays_untrained_witness :
    (train (fun _ => .error "svd failure") (fun _ _ => .ok ⟨[]⟩) (mkEngine 1 1) [] () []).1.is_trained = false ∧
    get_recommendations
      (train (fun _ => .error "svd failure") (fun _ _ => .ok ⟨[]⟩) (mkEngine 1 1) [] () []).1
        "u0" 1 = .error "Model must be trained before making recommendations" ∧
    evaluate
      (train (fun _ => .error "svd failure") (fun _ _ => .ok ⟨[]⟩) (mkEngine 1 1) [] () []).1
        [] = .error "Model must be trained before evaluation" := by
  have h := @failed_train_stays_untrained Unit (fun _ => .error "svd failure")
    (fun _ _ => .ok ⟨[]⟩) (mkEngine 1 1) [] () [] rfl (by decide)
  exact ⟨h.1, h.2.1 "u0" 1, h.2.2 []⟩

/- ------------------------------------------------------------------ -/
/- uniqueInOrder lemmas for the encoder contract                       -/
/- ------------------------------------------------------------------ -/

theorem mem_uniqueInOrderAux :
    ∀ (l seen : List String) (a : String),
      a ∈ uniqueInOrderAux l seen ↔ a ∈ l ∧ a ∉ seen := by
  intro l
  induction l with
  | nil =>
    intro seen a
    simp [uniqueInOrderAux]
  | cons hd tl ih =>
    intro seen a
    by_cases hh : hd ∈ seen
    · simp only [uniqueInOrderAux]
      rw [if_pos hh, ih]
      constructor
      · rintro ⟨h1, h2⟩
        exact ⟨List.mem_cons_of_mem _ h1, h2⟩
      · rintro ⟨h1, h2⟩
        rcases List.mem_cons.mp h1 with h3 | h3
        · subst h3
          exact absurd hh h2
        · exact ⟨h3, h2⟩
    · simp only [uniqueInOrderAux]
      rw [if_neg hh, List.mem_cons, ih]
      simp only [List.mem_cons, not_or]
      constructor
      · rintro (h | ⟨h1, h2, h3⟩)
        · subst h
          exact ⟨Or.inl rfl, hh⟩
        · exact ⟨Or.inr h1, h3⟩
      · rintro ⟨h1 | h1, h2⟩
        · exact Or.inl h1
        · by_cases hah : a = hd
          · exact Or.inl hah
          · exact Or.inr ⟨h1, hah, h2⟩

theorem nodup_uniqueInOrderAux : ∀ (l seen : List String),
    (uniqueInOrderAux l seen).Nodup := by
  intro l
  induction l with
  | nil =>
    intro seen
    simp [uniqueInOrderAux]
  | cons hd tl ih =>
    intro seen
    by_cases hh : hd ∈ seen
    · simp only [uniqueInOrderAux]
      rw [if_pos hh]
      exact ih _
    · simp only [uniqueInOrderAux]
      rw [if_neg hh]
      refine List.Nodup.cons ?_ (ih _)
      intro hmem
      have hm2 := (mem_uniqueInOrderAux tl (hd :: seen) hd).mp hmem
      exact hm2.2 (List.mem_cons_self hd seen)

theorem mem_uniqueInOrder (l : List String) (a : String) :
    a ∈ uniqueInOrder l ↔ a ∈ l := by
  rw [uniqueInOrder, mem_uniqueInOrderAux]
  simp

theorem nodup_uniqueInOrder (l : List String) : (uniqueInOrder l).Nodup :=
  nodup_uniqueInOrderAux l []

theorem length_uniqueInOrder_eq_dedup (l : List String) :
    (uniqueInOrder l).length = l.dedup.length := by
  refine List.Perm.length_eq ?_
  rw [List.perm_ext_iff_of_nodup (nodup_uniqueInOrder l) (List.nodup_dedup l)]
  intro a
  rw [mem_uniqueInOrder, List.mem_dedup]

theorem uniqueInOrderAux_pairwise :
    ∀ (l seen : List String),
      List.Pairwise (fun u v => List.indexOf u l < List.indexOf v l)
        (uniqueInOrderAux l seen) := by
  intro l
  induction l with
  | nil =>
    intro seen
    simp [uniqueInOrderAux]
  | cons hd tl ih =>
    intro seen
    by_cases hh : hd ∈ seen
    · simp only [uniqueInOrderAux]
      rw [if_pos hh]
      refine (ih seen).imp_of_mem ?_
      intro u v hu hv hlt
      have hu2 := (mem_uniqueInOrderAux tl seen u).mp hu
      have hv2 := (mem_uniqueInOrderAux tl seen v).mp hv
      have hune : u ≠ hd := fun h => hu2.2 (by rw [h]; exact hh)
      have hvne : v ≠ hd := fun h => hv2.2 (by rw [h]; exact hh)
      rw [List.indexOf_cons_ne tl (fun h => hune h.symm),
        List.indexOf_cons_ne tl (fun h => hvne h.symm)]
      exact Nat.succ_lt_succ hlt
    · simp only [uniqueInOrderAux]
      rw [if_neg hh]
      refine List.Pairwise.cons ?_ ?_
      · intro v hv
        have hv2 := (mem_uniqueInOrderAux tl (hd :: seen) v).mp hv
        have hvne : v ≠ hd := fun h =>
          hv2.2 (by rw [h]; exact List.mem_cons_self hd seen)
        rw [List.indexOf_cons_self, List.indexOf_cons_ne tl (fun h => hvne h.symm)]
        exact Nat.succ_pos _
      · refine (ih (hd :: seen)).imp_of_mem ?_
        intro u v hu hv hlt
        have hu2 := (mem_uniqueInOrderAux tl (hd :: seen) u).mp hu
        have hv2 := (mem_uniqueInOrderAux tl (hd :: seen) v).mp hv
        have hune : u ≠ hd := fun h =>
          hu2.2 (by rw [h]; exact List.mem_cons_self hd seen)
        have hvne : v ≠ hd := fun h =>
          hv2.2 (by rw [h]; exact List.mem_cons_self hd seen)
        rw [List.indexOf_cons_ne tl (fun h => hune h.symm),
          List.indexOf_cons_ne tl (fun h => hvne h.symm)]
        exact Nat.succ_lt_succ hlt

theorem uniqueInOrder_pairwise (l : List String) :
    List.Pairwise (fun u v => List.indexOf u l < List.indexOf v l)
      (uniqueInOrder l) :=
  uniqueInOrderAux_pairwise l []

theorem indexOf_surjective (l : List String) (hl : l.Nodup) (k : ℕ)
    (hk : k < l.length) : ∃ u ∈ l, List.indexOf u l = k := by
  refine ⟨l.get ⟨k, hk⟩, List.get_mem l k hk, ?_⟩
  have h1 : List.indexOf (l.get ⟨k, hk⟩) l < l.length :=
    List.indexOf_lt_length.mpr (List.get_mem l k hk)
  have h2 : l.get ⟨List.indexOf (l.get ⟨k, hk⟩) l, h1⟩ = l.get ⟨k, hk⟩ :=
    List.indexOf_get h1
  have h3 := (List.Nodup.get_inj_iff hl).mp h2
  exact congrArg Fin.val h3

/- ------------------------------------------------------------------ -/
/- C6: the encoders are first-occurrence bijections onto a range       -/
/- ------------------------------------------------------------------ -/

/-- C6: after preprocessing, the user encoder list is duplicate-free, has
as many entries as there are distinct post-filter users, maps its members
injectively and surjectively onto the index range below its length, and
lists users in strictly increasing order of first occurrence in the
filtered data; the same holds for the item encoder list. -/
theorem encoders_bijective_first_occurrence (dp : DataProcessor) (df : List Interaction) :
    ((preprocessDP dp df).1.user_ids.Nodup ∧
     (preprocessDP dp df).1.user_ids.length =
       ((preprocessDP dp df).2.map (fun r => r.user_id)).dedup.length ∧
     (∀ u ∈ (preprocessDP dp df).1.user_ids,
        List.indexOf u (preprocessDP dp df).1.user_ids <
          (preprocessDP dp df).1.user_ids.length) ∧
     (∀ u ∈ (preprocessDP dp df).1.user_ids, ∀ v ∈ (preprocessDP dp df).1.user_ids,
        List.indexOf u (preprocessDP dp df).1.user_ids =
          List.indexOf v (preprocessDP dp df).1.user_ids → u = v) ∧
     (∀ k, k < (preprocessDP dp df).1.user_ids.length →
        ∃ u ∈ (preprocessDP dp df).1.user_ids,
          List.indexOf u (preprocessDP dp df).1.user_ids = k) ∧
     List.Pairwise (fun u v =>
        List.indexOf u ((preprocessDP dp df).2.map (fun r => r.user_id)) <
        List.indexOf v ((preprocessDP dp df).2.map (fun r => r.user_id)))
       (preprocessDP dp df).1.user_ids) ∧
    ((preprocessDP dp df).1.item_ids.Nodup ∧
     (preprocessDP dp df).1.item_ids.length =
       ((preprocessDP dp df).2.map (fun r => r.item_id)).dedup.length ∧
     (∀ u ∈ (preprocessDP dp df).1.item_ids,
        List.indexOf u (preprocessDP dp df).1.item_ids <
          (preprocessDP dp df).1.item_ids.length) ∧
     (∀ u ∈ (preprocessDP dp df).1.item_ids, ∀ v ∈ (preprocessDP dp df).1.item_ids,
        List.indexOf u (preprocessDP dp df).1.item_ids =
          List.indexOf v (preprocessDP dp df).1.item_ids → u = v) ∧
     (∀ k, k < (preprocessDP dp df).1.item_ids.length →
        ∃ u ∈ (preprocessDP dp df).1.item_ids,
          List.indexOf u (preprocessDP dp df).1.item_ids = k) ∧
     List.Pairwise (fun u v =>
        List.indexOf u ((preprocessDP dp df).2.map (fun r => r.item_id)) <
        List.indexOf v ((preprocessDP dp df).2.map (fun r => r.item_id)))
       (preprocessDP dp df).1.item_ids) := by
  refine ⟨⟨?_, ?_, ?_, ?_, ?_, ?_⟩, ⟨?_, ?_, ?_, ?_, ?_, ?_⟩⟩
  · exact nodup_uniqueInOrder _
  · exact length_uniqueInOrder_eq_dedup _
  · intro u hu
    exact List.indexOf_lt_length.mpr hu
  · intro u hu v hv h
    exact (List.indexOf_inj hu hv).mp h
  · exact indexOf_surjective _ (nodup_uniqueInOrder _)
  · exact uniqueInOrder_pairwise _
  · exact nodup_uniqueInOrder _
  · exact length_uniqueInOrder_eq_dedup _
  · intro u hu
    exact List.indexOf_lt_length.mpr hu
  · intro u hu v hv h
    exact (List.indexOf_inj hu hv).mp h
  · exact indexOf_surjective _ (nodup_uniqueInOrder _)
  · exact uniqueInOrder_pairwise _

/-- Witness for C6, instancing the bijection contract on the four-row
scenario of the specification with threshold 1. -/
theorem encoders_bijective_first_occurrence_witness :
    (preprocessDP ⟨1, [], []⟩
      [⟨"u1", "i1", some 5⟩, ⟨"u1", "i2", some 3⟩,
       ⟨"u2", "i1", some 4⟩, ⟨"u2", "i3", some 2⟩]).1.user_ids.Nodup ∧
    (∀ u ∈ (preprocessDP ⟨1, [], []⟩
      [⟨"u1", "i1", some 5⟩, ⟨"u1", "i2", some 3⟩,
       ⟨"u2", "i1", some 4⟩, ⟨"u2", "i3", some 2⟩]).1.user_ids,
      List.indexOf u (preprocessDP ⟨1, [], []⟩
        [⟨"u1", "i1", some 5⟩, ⟨"u1", "i2", some 3⟩,
         ⟨"u2", "i1", some 4⟩, ⟨"u2", "i3", some 2⟩]).1.user_ids <
      (preprocessDP ⟨1, [], []⟩
        [⟨"u1", "i1", some 5⟩, ⟨"u1", "i2", some 3⟩,
         ⟨"u2", "i1", some 4⟩, ⟨"u2", "i3", some 2⟩]).1.user_ids.length) :=
  ⟨(encoders_bijective_first_occurrence ⟨1, [], []⟩
      [⟨"u1", "i1", some 5⟩, ⟨"u1", "i2", some 3⟩,
       ⟨"u2", "i1", some 4⟩, ⟨"u2", "i3", some 2⟩]).1.1,
   (encoders_bijective_first_occurrence ⟨1, [], []⟩
      [⟨"u1", "i1", some 5⟩, ⟨"u1", "i2", some 3⟩,
       ⟨"u2", "i1", some 4⟩, ⟨"u2", "i3", some 2⟩]).1.2.2.1⟩

/- ------------------------------------------------------------------ -/
/- Train decomposition lemmas                                          -/
/- ------------------------------------------------------------------ -/

theorem trainRest_dp (cfRes : Except String (List (List ℚ) × List (List ℚ)))
    (cbRes : Except String CBModel) (e1 : Engine) (m : InteractionMatrix) :
    (trainRest cfRes cbRes e1 m).1.data_processor = e1.data_processor := by
  cases cfRes with
  | error s => rfl
  | ok p =>
    obtain ⟨uf, itf⟩ := p
    cases cbRes with
    | error s => rfl
    | ok cb => rfl

theorem trainRest_success (cfRes : Except String (List (List ℚ) × List (List ℚ)))
    (cbRes : Except String CBModel) (e1 : Engine) (m : InteractionMatrix)
    (h : (trainRest cfRes cbRes e1 m).2 = none) :
    ∃ uf itf cb, cfRes = .ok (uf, itf) ∧ cbRes = .ok cb ∧
      (trainRest cfRes cbRes e1 m).1 =
        { e1 with cf_model := cf_fit_with uf itf m, cb_model := cb,
                  is_trained := true } := by
  cases cfRes with
  | error s => simp [trainRest] at h
  | ok p =>
    obtain ⟨uf, itf⟩ := p
    cases cbRes with
    | error s => simp [trainRest] at h
    | ok cb => exact ⟨uf, itf, cb, rfl, rfl, rfl⟩

theorem train_success_oracles {Items : Type}
    (cfF : InteractionMatrix → Except String (List (List ℚ) × List (List ℚ)))
    (cbF : Items → List String → Except String CBModel)
    (e : Engine) (idf : List Interaction) (itdf : Items) (fc : List String)
    (h : (train cfF cbF e idf itdf fc).2 = none) :
    ∃ uf itf cb, cfF (trainPre e idf).2 = .ok (uf, itf) ∧ cbF itdf fc = .ok cb := by
  rw [train] at h
  obtain ⟨uf, itf, cb, hcf, hcb, _⟩ := trainRest_success _ _ _ _ h
  exact ⟨uf, itf, cb, hcf, hcb⟩

theorem train_success_shape {Items : Type}
    (cfF : InteractionMatrix → Except String (List (List ℚ) × List (List ℚ)))
    (cbF : Items → List String → Except String CBModel)
    (e : Engine) (idf : List Interaction) (itdf : Items) (fc : List String)
    (uf itf : List (List ℚ)) (cb : CBModel)
    (hcf : cfF (trainPre e idf).2 = .ok (uf, itf))
    (hcb : cbF itdf fc = .ok cb) :
    train cfF cbF e idf itdf fc =
      ({ (trainPre e idf).1 with
         cf_model := cf_fit_with uf itf (trainPre e idf).2,
         cb_model := cb, is_trained := true }, none) := by
  rw [train, hcf, hcb]
  rfl

theorem preprocessDP_min_eq (dp dp2 : DataProcessor) (df : List Interaction)
    (h : dp.min_interactions = dp2.min_interactions) :
    preprocessDP dp df = preprocessDP dp2 df := by
  simp only [preprocessDP, h]

/- ------------------------------------------------------------------ -/
/- Seen-set accumulation lemmas                                        -/
/- ------------------------------------------------------------------ -/

theorem mem_seenOf_addSeen (m : List (ℕ × List ℕ)) (u i w j : ℕ) :
    j ∈ seenOf (addSeen m u i) w ↔ j ∈ seenOf m w ∨ (w = u ∧ j = i) := by
  induction m with
  | nil =>
    by_cases hw : w = u
    · subst hw
      simp [addSeen, seenOf, List.lookup]
    · simp [addSeen, seenOf, List.lookup, beq_eq_false_iff_ne.mpr hw, hw]
  | cons a rest ih =>
    obtain ⟨k, s⟩ := a
    simp only [addSeen]
    by_cases hk : k = u
    · rw [if_pos hk]
      by_cases hw : w = k
      · have hbeq : (w == k) = true := beq_iff_eq.mpr hw
        simp only [seenOf, List.lookup, hbeq, Option.getD_some]
        by_cases his : i ∈ s
        · rw [if_pos his]
          constructor
          · intro h
            exact Or.inl h
          · rintro (h | ⟨h1, h2⟩)
            · exact h
            · rw [h2]
              exact his
        · rw [if_neg his]
          rw [List.mem_append, List.mem_singleton]
          constructor
          · rintro (h | h)
            · exact Or.inl h
            · exact Or.inr ⟨hw.trans hk, h⟩
          · rintro (h | ⟨h1, h2⟩)
            · exact Or.inl h
            · exact Or.inr h2
      · have hbeq : (w == k) = false := beq_eq_false_iff_ne.mpr hw
        simp only [seenOf, List.lookup, hbeq]
        constructor
        · intro h
          exact Or.inl h
        · rintro (h | ⟨h1, h2⟩)
          · exact h
          · exact absurd (h1.trans hk.symm) hw
    · rw [if_neg hk]
      by_cases hw : w = k
      · have hbeq : (w == k) = true := beq_iff_eq.mpr hw
        simp only [seenOf, List.lookup, hbeq, Option.getD_some]
        constructor
        · intro h
          exact Or.inl h
        · rintro (h | ⟨h1, h2⟩)
          · exact h
          · exact absurd (hw.symm.trans h1) hk
      · have hbeq : (w == k) = false := beq_eq_false_iff_ne.mpr hw
        simp only [seenOf, List.lookup, hbeq]
        exact ih

theorem mem_seenOf_accumulateSeen (enc : List EncodedInteraction)
    (m : List (ℕ × List ℕ)) (u j : ℕ) :
    j ∈ seenOf (accumulateSeen m enc) u ↔
      j ∈ seenOf m u ∨ ∃ r ∈ enc, r.user_idx = u ∧ r.item_idx = j := by
  induction enc generalizing m with
  | nil => simp [accumulateSeen]
  | cons r rest ih =>
    have hstep : accumulateSeen m (r :: rest) =
        accumulateSeen (addSeen m r.user_idx r.item_idx) rest := rfl
    rw [hstep, ih, mem_seenOf_addSeen]
    constructor
    · rintro ((h | ⟨h1, h2⟩) | ⟨r2, hr2, h3, h4⟩)
      · exact Or.inl h
      · exact Or.inr ⟨r, List.mem_cons_self r rest, h1.symm, h2.symm⟩
      · exact Or.inr ⟨r2, List.mem_cons_of_mem r hr2, h3, h4⟩
    · rintro (h | ⟨r2, hr2, h3, h4⟩)
      · exact Or.inl (Or.inl h)
      · rcases List.mem_cons.mp hr2 with h5 | h5
        · subst h5
          exact Or.inl (Or.inr ⟨h3.symm, h4.symm⟩)
        · exact Or.inr ⟨r2, h5, h3, h4⟩

/- ------------------------------------------------------------------ -/
/- C1: retrain replaces everything except the accumulated SeenSets     -/
/- ------------------------------------------------------------------ -/

/-- Oracle used by the retrain counterexample: a factorization that always
succeeds with empty factor matrices. -/
def cexCfF : InteractionMatrix → Except String (List (List ℚ) × List (List ℚ)) :=
  fun _ => .ok ([], [])

/-- Oracle used by the retrain counterexample: a content fit that always
succeeds with an empty similarity matrix. -/
def cexCbF : Unit → List String → Except String CBModel :=
  fun _ _ => .ok ⟨[]⟩

/-- Retrain counterexample data, first run: a complete grid of five users
by six items, so every user has six interactions and every item five, and
all rows survive the threshold of five. -/
def cexD1 : List Interaction :=
  [⟨"u0", "a0", some 1⟩,
   ⟨"u0", "a1", some 1⟩,
   ⟨"u0", "a2", some 1⟩,
   ⟨"u0", "a3", some 1⟩,
   ⟨"u0", "a4", some 1⟩,
   ⟨"u0", "a5", some 1⟩,
   ⟨"u1", "a0", some 1⟩,
   ⟨"u1", "a1", some 1⟩,
   ⟨"u1", "a2", some 1⟩,
   ⟨"u1", "a3", some 1⟩,
   ⟨"u1", "a4", some 1⟩,
   ⟨"u1", "a5", some 1⟩,
   ⟨"u2", "a0", some 1⟩,
   ⟨"u2", "a1", some 1⟩,
   ⟨"u2", "a2", some 1⟩,
   ⟨"u2", "a3", some 1⟩,
   ⟨"u2", "a4", some 1⟩,
   ⟨"u2", "a5", some 1⟩,
   ⟨"u3", "a0", some 1⟩,
   ⟨"u3", "a1", some 1⟩,
   ⟨"u3", "a2", some 1⟩,
   ⟨"u3", "a3", some 1⟩,
   ⟨"u3", "a4", some 1⟩,
   ⟨"u3", "a5", some 1⟩,
   ⟨"u4", "a0", some 1⟩,
   ⟨"u4", "a1", some 1⟩,
   ⟨"u4", "a2", some 1⟩,
   ⟨"u4", "a3", some 1⟩,
   ⟨"u4", "a4", some 1⟩,
   ⟨"u4", "a5", some 1⟩]

def cexD2 : List Interaction :=
  [⟨"u0", "b0", some 1⟩,
   ⟨"u0", "b1", some 1⟩,
   ⟨"u0", "b2", some 1⟩,
   ⟨"u0", "b3", some 1⟩,
   ⟨"u0", "b4", some 1⟩,
   ⟨"u1", "b0", some 1⟩,
   ⟨"u1", "b1", some 1⟩,
   ⟨"u1", "b2", some 1⟩,
   ⟨"u1", "b3", some 1⟩,
   ⟨"u1", "b4", some 1⟩,
   ⟨"u2", "b0", some 1⟩,
   ⟨"u2", "b1", some 1⟩,
   ⟨"u2", "b2", some 1⟩,
   ⟨"u2", "b3", some 1⟩,
   ⟨"u2", "b4", some 1⟩,
   ⟨"u3", "b0", some 1⟩,
   ⟨"u3", "b1", some 1⟩,
   ⟨"u3", "b2", some 1⟩,
   ⟨"u3", "b3", some 1⟩,
   ⟨"u3", "b4", some 1⟩,
   ⟨"u4", "b0", some 1⟩,
   ⟨"u4", "b1", some 1⟩,
   ⟨"u4", "b2", some 1⟩,
   ⟨"u4", "b3", some 1⟩,
   ⟨"u4", "b4", some 1⟩]

set_option maxRecDepth 10000 in
/-- Counterexample to C1 as stated: after training on cexD1 and retraining
on cexD2, user index 0 still has item index 5 in its SeenSet (carried over
from the first run, whose item encoding had six items), while a freshly
constructed engine trained only on cexD2 does not: user_item_interactions
is accumulated across train calls, never reset. -/
theorem retrain_seen_carryover_cex :
    5 ∈ seenOf ((train cexCfF cexCbF
        (train cexCfF cexCbF (mkEngine (7/10) (3/10)) cexD1 () []).1
        cexD2 () []).1).user_item_interactions 0 ∧
    5 ∉ seenOf ((train cexCfF cexCbF (mkEngine (7/10) (3/10))
        cexD2 () []).1).user_item_interactions 0 := by
  decide

/-- C1 amended: a successful retrain replaces the DataProcessor (identity
maps), the InteractionMatrix, both sub-model states and the trained flag
with exactly the values a freshly constructed engine trained only on the
second dataset would have, but the SeenSet store is only accumulated: every
seen item of the fresh engine is seen in the retrained engine, while the
retrained engine may retain additional indices from the first run. -/
theorem retrain_replaces_all_but_seen {Items : Type}
    (cfF : InteractionMatrix → Except String (List (List ℚ) × List (List ℚ)))
    (cbF : Items → List String → Except String CBModel)
    (e : Engine) (d1 d2 : List Interaction) (it1 it2 : Items)
    (fc1 fc2 : List String)
    (hm : e.data_processor.min_interactions = 5)
    (h1 : (train cfF cbF e d1 it1 fc1).2 = none)
    (h2 : (train cfF cbF (train cfF cbF e d1 it1 fc1).1 d2 it2 fc2).2 = none) :
    (train cfF cbF (train cfF cbF e d1 it1 fc1).1 d2 it2 fc2).1.data_processor =
      (train cfF cbF (mkEngine e.cf_weight e.cb_weight) d2 it2 fc2).1.data_processor ∧
    (train cfF cbF (train cfF cbF e d1 it1 fc1).1 d2 it2 fc2).1.interaction_matrix =
      (train cfF cbF (mkEngine e.cf_weight e.cb_weight) d2 it2 fc2).1.interaction_matrix ∧
    (train cfF cbF (train cfF cbF e d1 it1 fc1).1 d2 it2 fc2).1.cf_model =
      (train cfF cbF (mkEngine e.cf_weight e.cb_weight) d2 it2 fc2).1.cf_model ∧
    (train cfF cbF (train cfF cbF e d1 it1 fc1).1 d2 it2 fc2).1.cb_model =
      (train cfF cbF (mkEngine e.cf_weight e.cb_weight) d2 it2 fc2).1.cb_model ∧
    (train cfF cbF (train cfF cbF e d1 it1 fc1).1 d2 it2 fc2).1.is_trained =
      (train cfF cbF (mkEngine e.cf_weight e.cb_weight) d2 it2 fc2).1.is_trained ∧
    ∀ u i, i ∈ seenOf
        (train cfF cbF (mkEngine e.cf_weight e.cb_weight) d2 it2 fc2).1.user_item_interactions u →
      i ∈ seenOf
        (train cfF cbF (train cfF cbF e d1 it1 fc1).1 d2 it2 fc2).1.user_item_interactions u := by
  have hdpE1 : (train cfF cbF e d1 it1 fc1).1.data_processor.min_interactions = 5 := by
    rw [train, trainRest_dp]
    exact hm
  have hpp : preprocessDP (train cfF cbF e d1 it1 fc1).1.data_processor d2 =
      preprocessDP (mkEngine e.cf_weight e.cb_weight).data_processor d2 := by
    apply preprocessDP_min_eq
    rw [hdpE1]
    rfl
  have hmat : (trainPre (train cfF cbF e d1 it1 fc1).1 d2).2 =
      (trainPre (mkEngine e.cf_weight e.cb_weight) d2).2 := by
    simp only [trainPre, hpp]
  obtain ⟨uf, itf, cb, hcf, hcb⟩ := train_success_oracles cfF cbF _ d2 it2 fc2 h2
  have hcf2 : cfF (trainPre (mkEngine e.cf_weight e.cb_weight) d2).2 = .ok (uf, itf) := by
    rw [← hmat]
    exact hcf
  have hA := train_success_shape cfF cbF (train cfF cbF e d1 it1 fc1).1 d2 it2 fc2
    uf itf cb hcf hcb
  have hB := train_success_shape cfF cbF (mkEngine e.cf_weight e.cb_weight) d2 it2 fc2
    uf itf cb hcf2 hcb
  have hA1 : (train cfF cbF (train cfF cbF e d1 it1 fc1).1 d2 it2 fc2).1 =
      { (trainPre (train cfF cbF e d1 it1 fc1).1 d2).1 with
        cf_model := cf_fit_with uf itf (trainPre (train cfF cbF e d1 it1 fc1).1 d2).2,
        cb_model := cb, is_trained := true } := by
    rw [hA]
  have hB1 : (train cfF cbF (mkEngine e.cf_weight e.cb_weight) d2 it2 fc2).1 =
      { (trainPre (mkEngine e.cf_weight e.cb_weight) d2).1 with
        cf_model := cf_fit_with uf itf (trainPre (mkEngine e.cf_weight e.cb_weight) d2).2,
        cb_model := cb, is_trained := true } := by
    rw [hB]
  refine ⟨?_, ?_, ?_, ?_, ?_, ?_⟩
  · rw [hA1, hB1]
    show (trainPre (train cfF cbF e d1 it1 fc1).1 d2).1.data_processor =
      (trainPre (mkEngine e.cf_weight e.cb_weight) d2).1.data_processor
    simp only [trainPre, hpp]
  · rw [hA1, hB1]
    show (trainPre (train cfF cbF e d1 it1 fc1).1 d2).1.interaction_matrix =
      (trainPre (mkEngine e.cf_weight e.cb_weight) d2).1.interaction_matrix
    simp only [trainPre, hpp]
  · rw [hA1, hB1]
    show cf_fit_with uf itf (trainPre (train cfF cbF e d1 it1 fc1).1 d2).2 =
      cf_fit_with uf itf (trainPre (mkEngine e.cf_weight e.cb_weight) d2).2
    rw [hmat]
  · rw [hA1, hB1]
  · rw [hA1, hB1]
  · intro u i hi
    rw [hB1] at hi
    rw [hA1]
    have hi2 : i ∈ seenOf (accumulateSeen []
        (encodeRows (preprocessDP (mkEngine e.cf_weight e.cb_weight).data_processor d2).1
          (preprocessDP (mkEngine e.cf_weight e.cb_weight).data_processor d2).2)) u := hi
    rw [mem_seenOf_accumulateSeen] at hi2
    rcases hi2 with h | ⟨r, hr, hru, hri⟩
    · exact absurd h (by simp [seenOf, List.lookup])
    · show i ∈ seenOf (accumulateSeen
        (train cfF cbF e d1 it1 fc1).1.user_item_interactions
        (encodeRows (preprocessDP (train cfF cbF e d1 it1 fc1).1.data_processor d2).1
          (preprocessDP (train cfF cbF e d1 it1 fc1).1.data_processor d2).2)) u
      rw [mem_seenOf_accumulateSeen]
      refine Or.inr ⟨r, ?_, hru, hri⟩
      rw [hpp]
      exact hr

set_option maxRecDepth 10000 in
/-- Witness for the amended C1 at the counterexample data: both training
runs succeed and the conclusion holds for them. -/
theorem retrain_replaces_all_but_seen_witness :
    (mkEngine (7/10) (3/10)).data_processor.min_interactions = 5 ∧
    (train cexCfF cexCbF (mkEngine (7/10) (3/10)) cexD1 () []).2 = none ∧
    (train cexCfF cexCbF (train cexCfF cexCbF (mkEngine (7/10) (3/10)) cexD1 () []).1
      cexD2 () []).2 = none ∧
    ((train cexCfF cexCbF (train cexCfF cexCbF (mkEngine (7/10) (3/10)) cexD1 () []).1
        cexD2 () []).1.data_processor =
      (train cexCfF cexCbF (mkEngine (7/10) (3/10)) cexD2 () []).1.data_processor ∧
     ∀ u i, i ∈ seenOf
        (train cexCfF cexCbF (mkEngine (7/10) (3/10)) cexD2 () []).1.user_item_interactions u →
      i ∈ seenOf
        (train cexCfF cexCbF (train cexCfF cexCbF (mkEngine (7/10) (3/10)) cexD1 () []).1
          cexD2 () []).1.user_item_interactions u) := by
  have h := retrain_replaces_all_but_seen cexCfF cexCbF (mkEngine (7/10) (3/10))
    cexD1 cexD2 () () [] [] rfl (by decide) (by decide)
  exact ⟨rfl, by decide, by decide, h.1, h.2.2.2.2.2⟩

end RecEngine
